import Mathlib

/-!
Shallow embedding of `catkin_tools/metadata.py`.

Paths are modelled as lists of characters, mirroring POSIX path strings.
The filesystem is a pair of a list of existing directory paths and an
association list from file paths to file contents.  YAML documents are
modelled by an inductive `Yaml` type; the codec is modelled by storing
parsed documents directly as file contents (dump followed by load is the
identity on the documents this module writes).  Python exceptions are
modelled by an `Err` type, and every mutating operation returns the
resulting filesystem together with an `Except Err` outcome, so that a
raised error also documents the filesystem state at the raise site.
-/

abbrev FPath := List Char

def METADATA_DIR_NAME : FPath := ".catkin_tools".toList

def METADATA_README_TEXT : String :=
"# Catkin Tools Metadata

This directory was generated by catkin_tools and it contains persistent
configuration information used by the `catkin` command and its sub-commands.

Please see the catkin_tools documentation before editing any files in this
directory.
"

/-- `posixpath.join a b` for a single extra component. -/
def osPathJoin (a b : FPath) : FPath :=
  if b.head? = some '/' then b
  else if a = [] ∨ a.getLast? = some '/' then a ++ b
  else a ++ '/' :: b

/-- The second component of `posixpath.split p`: the maximal suffix of `p`
containing no separator. -/
def splitTail (p : FPath) : FPath :=
  (p.reverse.takeWhile (fun c => decide (c ≠ '/'))).reverse

/-- Everything of `p` up to and including the last separator (before the
trailing-separator strip applied to the head). -/
def splitPre (p : FPath) : FPath :=
  (p.reverse.dropWhile (fun c => decide (c ≠ '/'))).reverse

/-- The first component of `posixpath.split p`: `splitPre p` with trailing
separators stripped unless it consists only of separators. -/
def splitHead (p : FPath) : FPath :=
  if (splitPre p).any (fun c => decide (c ≠ '/')) then
    ((splitPre p).reverse.dropWhile (fun c => decide (c = '/'))).reverse
  else splitPre p

/-- `posixpath.split`. -/
def osPathSplit (p : FPath) : FPath × FPath := (splitHead p, splitTail p)

/-- YAML-representable structured values. -/
inductive Yaml where
  | null : Yaml
  | bool (b : Bool) : Yaml
  | int (n : Int) : Yaml
  | str (s : String) : Yaml
  | seq (xs : List Yaml) : Yaml
  | map (kvs : List (String × Yaml)) : Yaml

/-- Contents of a file: either a YAML document or plain text. -/
inductive FileData where
  | yamlDoc (y : Yaml) : FileData
  | textDoc (s : String) : FileData

/-- The filesystem: existing directories, and files with their contents. -/
structure FS where
  dirs : List FPath
  files : List (FPath × FileData)

/-- Python exceptions raised by this module or by collaborator primitives. -/
inductive Err where
  | ioNotFound (p : FPath) : Err
  | ioNested (p m : FPath) : Err
  | typeError : Err
  | parseError : Err
  | isADirectory : Err
  | fileExists : Err
  | notADirectory : Err
  | attributeError : Err

/-- `os.path.exists`. -/
def osPathExists (fs : FS) (p : FPath) : Bool :=
  decide (p ∈ fs.dirs) || fs.files.any (fun e => decide (e.1 = p))

/-- `os.path.isdir`. -/
def osPathIsdir (fs : FS) (p : FPath) : Bool :=
  decide (p ∈ fs.dirs)

/-- Content of the file at `p`, if a file is there. -/
def lookupFileList (files : List (FPath × FileData)) (p : FPath) : Option FileData :=
  (files.find? (fun e => decide (e.1 = p))).map Prod.snd

/-- `open(p, 'w')` followed by a full write: replace any file at `p`. -/
def writeFileList (files : List (FPath × FileData)) (p : FPath) (d : FileData) :
    List (FPath × FileData) :=
  (p, d) :: files.filter (fun e => !decide (e.1 = p))

def writeFileFS (fs : FS) (p : FPath) (d : FileData) : FS :=
  { fs with files := writeFileList fs.files p d }

/-- `q` is `root` itself or lies strictly below `root`. -/
def isUnder (root q : FPath) : Bool :=
  decide (q = root) || decide (q.take (root.length + 1) = root ++ ['/'])

/-- `shutil.rmtree`: recursively delete the directory at `p`. -/
def shutilRmtree (fs : FS) (p : FPath) : FS × Except Err Unit :=
  if osPathIsdir fs p then
    ({ dirs := fs.dirs.filter (fun d => !isUnder p d),
       files := fs.files.filter (fun e => !isUnder p e.1) }, Except.ok ())
  else (fs, Except.error Err.notADirectory)

/-- `os.mkdir`. -/
def osMkdir (fs : FS) (p : FPath) : FS × Except Err Unit :=
  if osPathExists fs p then (fs, Except.error Err.fileExists)
  else ({ fs with dirs := p :: fs.dirs }, Except.ok ())

/-- Python truthiness of the optional verb argument. -/
def pyTruthyOptStr : Option String → Bool
  | none => false
  | some s => !decide (s = "")

/-- `get_paths(workspace_path, verb)`. -/
def get_paths (workspace_path : FPath) (verb : Option String := none) :
    FPath × Option FPath :=
  (osPathJoin workspace_path METADATA_DIR_NAME,
   if pyTruthyOptStr verb then
     some (osPathJoin (osPathJoin workspace_path METADATA_DIR_NAME)
            ((verb.getD "") ++ ".yml").toList)
   else none)

/-- The candidate check inside the discovery loop:
`os.path.exists(candidate_path) and os.path.isdir(candidate_path)`. -/
def isWorkspaceMarked (fs : FS) (p : FPath) : Bool :=
  osPathExists fs (get_paths p).1 && osPathIsdir fs (get_paths p).1

/-- The `while True` loop of `find_enclosing_workspace`, with explicit fuel;
`none` means the fuel ran out before the loop finished. -/
def fewGo (fs : FS) : Nat → FPath → Option (Option FPath)
  | 0, _ => none
  | fuel + 1, p =>
    if isWorkspaceMarked fs p then some (some p)
    else if (osPathSplit p).2.length = 0 then some none
    else fewGo fs fuel (osPathSplit p).1

/-- `find_enclosing_workspace(search_start_path)`. -/
def find_enclosing_workspace (fs : FS) (search_start_path : FPath) : Option FPath :=
  (fewGo fs (search_start_path.length + 1) search_start_path).getD none

/-- The list of candidate paths visited by the discovery loop, with fuel. -/
def walkGo : Nat → FPath → List FPath
  | 0, _ => []
  | fuel + 1, p =>
    p :: (if (osPathSplit p).2.length = 0 then [] else walkGo fuel (osPathSplit p).1)

/-- The upward chain of candidate paths visited from `p`. -/
def walkChain (p : FPath) : List FPath := walkGo (p.length + 1) p

def mdPath (workspace_path : FPath) : FPath := (get_paths workspace_path).1

def readmePath (workspace_path : FPath) : FPath :=
  osPathJoin (mdPath workspace_path) "README".toList

def readmeData : FileData := FileData.textDoc METADATA_README_TEXT

/-- The verb file path, `<workspace>/.catkin_tools/<verb>.yml`. -/
def verbFilePath (workspace_path : FPath) (v : String) : FPath :=
  osPathJoin (mdPath workspace_path) (v ++ ".yml").toList

/-- The path the merge step of `update_metadata` actually reads, because the
source passes `metadata_dir` (not `workspace_path`) to `get_metadata`. -/
def bugReadPath (workspace_path : FPath) (v : String) : FPath :=
  verbFilePath (mdPath workspace_path) v

/-- The tail of `init_metadata_dir` after the existence and nesting checks:
create or reset the metadata directory, then write the README. -/
def initRest (fs : FS) (workspace_path : FPath) (reset : Bool) : FS × Except Err Unit :=
  if osPathExists fs (get_paths workspace_path).1 then
    if reset then
      match shutilRmtree fs (get_paths workspace_path).1 with
      | (fs₁, Except.ok _) =>
        match osMkdir fs₁ (get_paths workspace_path).1 with
        | (fs₂, Except.ok _) =>
          (writeFileFS fs₂ (readmePath workspace_path) readmeData, Except.ok ())
        | (fs₂, Except.error e) => (fs₂, Except.error e)
      | (fs₁, Except.error e) => (fs₁, Except.error e)
    else (writeFileFS fs (readmePath workspace_path) readmeData, Except.ok ())
  else
    match osMkdir fs (get_paths workspace_path).1 with
    | (fs₁, Except.ok _) =>
      (writeFileFS fs₁ (readmePath workspace_path) readmeData, Except.ok ())
    | (fs₁, Except.error e) => (fs₁, Except.error e)

/-- `init_metadata_dir(workspace_path, reset)`. -/
def init_metadata_dir (fs : FS) (workspace_path : FPath) (reset : Bool := false) :
    FS × Except Err Unit :=
  if !osPathExists fs workspace_path then
    (fs, Except.error (Err.ioNotFound workspace_path))
  else
    match find_enclosing_workspace fs workspace_path with
    | some marked_workspace =>
      if ¬ marked_workspace = [] ∧ ¬ marked_workspace = workspace_path then
        (fs, Except.error (Err.ioNested workspace_path marked_workspace))
      else initRest fs workspace_path reset
    | none => initRest fs workspace_path reset

/-- `get_metadata(workspace_path, verb)`. -/
def get_metadata (fs : FS) (workspace_path : FPath) (verb : String) : Except Err Yaml :=
  match (get_paths workspace_path (some verb)).2 with
  | none => Except.error Err.typeError
  | some metadata_file_path =>
    if !osPathExists fs metadata_file_path then Except.ok (Yaml.map [])
    else
      match lookupFileList fs.files metadata_file_path with
      | some (FileData.yamlDoc y) => Except.ok y
      | some (FileData.textDoc _) => Except.error Err.parseError
      | none => Except.error Err.isADirectory

/-- Python truthiness of a YAML value. -/
def pyTruthyYaml : Yaml → Bool
  | Yaml.null => false
  | Yaml.bool b => b
  | Yaml.int n => !decide (n = 0)
  | Yaml.str s => !decide (s = "")
  | Yaml.seq xs => !xs.isEmpty
  | Yaml.map kvs => !kvs.isEmpty

/-- `d[k] = v` on a Python dict modelled as an insertion-ordered entry list. -/
def dictSet (d : List (String × Yaml)) (k : String) (v : Yaml) :
    List (String × Yaml) :=
  if d.any (fun e => decide (e.1 = k)) then
    d.map (fun e => if e.1 = k then (k, v) else e)
  else d ++ [(k, v)]

/-- `d.update(nd)` on Python dicts. -/
def dictUpdate (d nd : List (String × Yaml)) : List (String × Yaml) :=
  nd.foldl (fun acc e => dictSet acc e.1 e.2) d

/-- `update_metadata(workspace_path, verb, new_data)`.  Note that the merge
step reads `get_metadata((get_paths workspace_path).1, verb)`, mirroring the
source line `data = get_metadata(metadata_dir, verb) or dict()`. -/
def update_metadata (fs : FS) (workspace_path : FPath) (verb : String)
    (new_data : List (String × Yaml) := []) : FS × Except Err Unit :=
  match init_metadata_dir fs workspace_path false with
  | (fs₁, Except.error e) => (fs₁, Except.error e)
  | (fs₁, Except.ok _) =>
    match get_metadata fs₁ (get_paths workspace_path (some verb)).1 verb with
    | Except.error e => (fs₁, Except.error e)
    | Except.ok loaded =>
      match (if pyTruthyYaml loaded then loaded else Yaml.map []) with
      | Yaml.map kvs =>
        match (get_paths workspace_path (some verb)).2 with
        | some metadata_file_path =>
          (writeFileFS fs₁ metadata_file_path
            (FileData.yamlDoc (Yaml.map (dictUpdate kvs new_data))), Except.ok ())
        | none => (fs₁, Except.error Err.typeError)
      | _ => (fs₁, Except.error Err.attributeError)

/-- The filesystem produced by a destructive reset of the metadata directory:
everything under it deleted, the directory recreated, the README rewritten. -/
def resetFS (fs : FS) (w : FPath) : FS :=
  { dirs := mdPath w :: fs.dirs.filter (fun d => !isUnder (mdPath w) d),
    files := writeFileList (fs.files.filter (fun e => !isUnder (mdPath w) e.1))
      (readmePath w) readmeData }

/-- Sample workspace path used by concrete instances. -/
def sampleWs : FPath := "/ws".toList

/-- A filesystem holding just the sample workspace directory. -/
def sampleFS0 : FS := ⟨[sampleWs], []⟩

/-- State after a first update writing the key `a`. -/
def sampleFS1 : FS := (update_metadata sampleFS0 sampleWs "v" [("a", Yaml.int 1)]).1

/-- State after a second update writing the key `b`. -/
def sampleFS2 : FS := (update_metadata sampleFS1 sampleWs "v" [("b", Yaml.int 2)]).1

/-- A workspace whose metadata directory hides a second marker directory and a
document at the path the merge step of `update_metadata` erroneously reads. -/
def advFS : FS :=
  ⟨[sampleWs, mdPath sampleWs, mdPath (mdPath sampleWs)],
   [(bugReadPath sampleWs "v", FileData.yamlDoc (Yaml.map [("a", Yaml.int 5)]))]⟩

/-- A marked workspace holding one verb document. -/
def sampleDocFS : FS :=
  ⟨[sampleWs, mdPath sampleWs],
   [(verbFilePath sampleWs "v", FileData.yamlDoc (Yaml.map [("a", Yaml.int 1)]))]⟩

/-- A marked workspace whose verb document and bug-read path both hold
the empty (null) YAML document. -/
def sampleNullFS : FS :=
  ⟨[sampleWs, mdPath sampleWs],
   [(verbFilePath sampleWs "v", FileData.yamlDoc Yaml.null),
    (bugReadPath sampleWs "v", FileData.yamlDoc Yaml.null)]⟩

/-- A directory strictly inside an existing workspace. -/
def sampleNestFS : FS := ⟨[sampleWs, mdPath sampleWs, "/ws/inner".toList], []⟩

/-- The empty filesystem. -/
def sampleMissFS : FS := ⟨[], []⟩

/-! ### Path lemmas -/

theorem length_dropWhile_le (q : Char → Bool) (l : List Char) :
    (l.dropWhile q).length ≤ l.length := by
  conv_rhs => rw [← List.takeWhile_append_dropWhile q l]
  rw [List.length_append]
  omega

theorem splitTail_add_splitPre_length (p : FPath) :
    (splitTail p).length + (splitPre p).length = p.length := by
  unfold splitTail splitPre
  rw [List.length_reverse, List.length_reverse]
  have h2 := congrArg List.length
    (List.takeWhile_append_dropWhile (fun c => decide (c ≠ '/')) p.reverse)
  rw [List.length_append, List.length_reverse] at h2
  exact h2

theorem splitHead_length_le (p : FPath) :
    (splitHead p).length ≤ (splitPre p).length := by
  unfold splitHead
  split
  · rw [List.length_reverse]
    calc ((splitPre p).reverse.dropWhile (fun c => decide (c = '/'))).length
        ≤ (splitPre p).reverse.length := length_dropWhile_le _ _
      _ = (splitPre p).length := List.length_reverse _
  · exact le_refl _

theorem splitHead_length_lt (p : FPath) (h : (splitTail p).length ≠ 0) :
    (splitHead p).length < p.length := by
  have h1 := splitTail_add_splitPre_length p
  have h2 := splitHead_length_le p
  omega

theorem splitPre_abs (p : FPath) (h : p.head? = some '/') :
    ∃ x : FPath, splitPre p = '/' :: x := by
  obtain ⟨t, rfl⟩ : ∃ t, p = '/' :: t := by
    cases p with
    | nil => simp at h
    | cons c t =>
      simp only [List.head?_cons, Option.some.injEq] at h
      exact ⟨t, by rw [h]⟩
  unfold splitPre
  rw [show ('/' :: t).reverse = t.reverse ++ ['/'] by simp]
  rw [List.dropWhile_append]
  split
  · exact ⟨[], by simp [List.dropWhile]⟩
  · exact ⟨(t.reverse.dropWhile (fun c => decide (c ≠ '/'))).reverse, by
      rw [List.reverse_append]; simp⟩

theorem splitHead_abs (p : FPath) (h : p.head? = some '/') :
    (splitHead p).head? = some '/' := by
  obtain ⟨x, hx⟩ := splitPre_abs p h
  unfold splitHead
  split
  · rename_i hany
    rw [hx] at hany ⊢
    have hxany : x.any (fun c => decide (c ≠ '/')) = true := by
      simpa using hany
    rw [show ('/' :: x).reverse = x.reverse ++ ['/'] by simp]
    rw [List.dropWhile_append]
    have hne : ¬(x.reverse.dropWhile (fun c => decide (c = '/'))).isEmpty = true := by
      rw [List.isEmpty_iff]
      intro hnil
      rw [List.dropWhile_eq_nil_iff] at hnil
      rw [List.any_eq_true] at hxany
      obtain ⟨c, hc, hcne⟩ := hxany
      have hmem : c ∈ x.reverse := by simpa using hc
      have := hnil c hmem
      simp only [decide_eq_true_eq] at hcne this
      exact hcne this
    rw [if_neg hne, List.reverse_append]
    simp
  · rw [hx]; rfl

theorem osPathJoin_getLast (a : FPath) {b : FPath} (hb : b ≠ []) :
    (osPathJoin a b).getLast? = b.getLast? := by
  obtain ⟨y, hy⟩ : ∃ y, b.getLast? = some y := by
    cases hgl : b.getLast? with
    | none => exact absurd (List.getLast?_eq_none_iff.mp hgl) hb
    | some y => exact ⟨y, rfl⟩
  unfold osPathJoin
  split
  · rfl
  · split
    · rw [List.getLast?_append, hy]; rfl
    · show (a ++ '/' :: b).getLast? = b.getLast?
      rw [List.getLast?_append, show ('/' :: b) = ['/'] ++ b from rfl,
        List.getLast?_append, hy]
      rfl

theorem osPathJoin_eq (a b : FPath) (ha : a ≠ []) (ha2 : a.getLast? ≠ some '/')
    (hb : b.head? ≠ some '/') : osPathJoin a b = a ++ '/' :: b := by
  unfold osPathJoin
  rw [if_neg hb, if_neg (not_or.mpr ⟨ha, ha2⟩)]

theorem mdPath_getLast (w : FPath) : (mdPath w).getLast? = some 's' := by
  show (osPathJoin w METADATA_DIR_NAME).getLast? = some 's'
  rw [osPathJoin_getLast w (by decide)]
  decide

theorem mdPath_ne_nil (w : FPath) : mdPath w ≠ [] := by
  intro h
  have hgl := mdPath_getLast w
  rw [h] at hgl
  simp at hgl

theorem mdPath_getLast_ne_sep (w : FPath) : (mdPath w).getLast? ≠ some '/' := by
  rw [mdPath_getLast]; decide

theorem toList_append (a b : String) : (a ++ b).toList = a.toList ++ b.toList := by
  simp [String.toList]

theorem verb_toList_ne_nil (v : String) : (v ++ ".yml").toList ≠ [] := by
  intro h
  rw [toList_append] at h
  have := List.append_eq_nil.mp h
  exact absurd this.2 (by decide)

theorem verbFilePath_getLast (w : FPath) (v : String) :
    (verbFilePath w v).getLast? = some 'l' := by
  show (osPathJoin (mdPath w) (v ++ ".yml").toList).getLast? = some 'l'
  rw [osPathJoin_getLast _ (verb_toList_ne_nil v), toList_append,
    List.getLast?_append]
  rfl

theorem readmePath_getLast (w : FPath) : (readmePath w).getLast? = some 'E' := by
  show (osPathJoin (mdPath w) "README".toList).getLast? = some 'E'
  rw [osPathJoin_getLast _ (by decide)]
  decide

theorem verb_ne_readme (w w2 : FPath) (v : String) :
    verbFilePath w v ≠ readmePath w2 := by
  intro h
  have h1 := verbFilePath_getLast w v
  rw [h, readmePath_getLast] at h1
  exact absurd h1 (by decide)

theorem verb_ne_md (w w2 : FPath) (v : String) : verbFilePath w v ≠ mdPath w2 := by
  intro h
  have h1 := verbFilePath_getLast w v
  rw [h, mdPath_getLast] at h1
  exact absurd h1 (by decide)

theorem get_paths_snd (w : FPath) (v : String) (hv : v ≠ "") :
    (get_paths w (some v)).2 = some (verbFilePath w v) := by
  simp [get_paths, pyTruthyOptStr, hv, verbFilePath, mdPath]

theorem get_metadata_absent (fs : FS) (w : FPath) (v : String) (hv : v ≠ "")
    (h : osPathExists fs (verbFilePath w v) = false) :
    get_metadata fs w v = Except.ok (Yaml.map []) := by
  unfold get_metadata
  rw [get_paths_snd w v hv]
  simp [h]

/-! ### Claim theorems: C10, C4, C3, C1 -/

/-- C10: `get_paths` treats an empty-string verb the same as no verb at all:
for every workspace path `w`, the verb-file component of
`get_paths w (some "")` is `none` rather than a path ending in `.yml`,
because the verb is tested for truthiness. -/
theorem get_paths_empty_verb_returns_none (w : FPath) :
    (get_paths w (some "")).2 = none := by
  simp [get_paths, pyTruthyOptStr]

/-- C4: `init_metadata_dir` on a path that does not exist fails with the
not-found error and leaves the filesystem exactly as it was. -/
theorem init_metadata_dir_missing_path (fs : FS) (p : FPath) (reset : Bool)
    (h : osPathExists fs p = false) :
    init_metadata_dir fs p reset = (fs, Except.error (Err.ioNotFound p)) := by
  unfold init_metadata_dir
  rw [h]
  rfl

theorem init_metadata_dir_missing_path_w :
    init_metadata_dir sampleMissFS "/x".toList true
      = (sampleMissFS, Except.error (Err.ioNotFound "/x".toList)) :=
  init_metadata_dir_missing_path sampleMissFS "/x".toList true (by decide)

/-- C3: if the verb file does not exist on disk, `get_metadata` returns an
empty mapping without error; no hypothesis about the metadata directory is
needed. -/
theorem get_metadata_missing_file_empty (fs : FS) (w : FPath) (v : String)
    (hv : v ≠ "") (h : osPathExists fs (verbFilePath w v) = false) :
    get_metadata fs w v = Except.ok (Yaml.map []) :=
  get_metadata_absent fs w v hv h

theorem get_metadata_missing_file_empty_w :
    get_metadata sampleMissFS sampleWs "build" = Except.ok (Yaml.map []) :=
  get_metadata_missing_file_empty sampleMissFS sampleWs "build" (by decide) (by decide)

/-- C1: evaluation of the source at the merge scenario: starting from a fresh
workspace, updating verb `v` with the key `a` and then with the key `b`
leaves only `b` in the document — the second update ignores the first because
the merge step reads from the wrong path — contradicting the claimed shallow
merge result of both keys. -/
theorem update_metadata_shallow_merge_bug :
    (update_metadata sampleFS0 sampleWs "v" [("a", Yaml.int 1)]).2 = Except.ok ()
    ∧ (update_metadata sampleFS1 sampleWs "v" [("b", Yaml.int 2)]).2 = Except.ok ()
    ∧ get_metadata sampleFS2 sampleWs "v" = Except.ok (Yaml.map [("b", Yaml.int 2)])
    ∧ get_metadata sampleFS2 sampleWs "v"
        ≠ Except.ok (Yaml.map [("a", Yaml.int 1), ("b", Yaml.int 2)]) := by
  refine ⟨rfl, rfl, rfl, ?_⟩
  rw [show get_metadata sampleFS2 sampleWs "v"
      = Except.ok (Yaml.map [("b", Yaml.int 2)]) from rfl]
  simp

/-! ### The discovery walk -/

theorem osPathSplit_fst (p : FPath) : (osPathSplit p).1 = splitHead p := rfl

theorem osPathSplit_snd (p : FPath) : (osPathSplit p).2 = splitTail p := rfl

theorem fewGo_eq_walkGo_find? (fs : FS) :
    ∀ (fuel : Nat) (p : FPath), p.length < fuel →
      fewGo fs fuel p
        = some (List.find? (fun q => isWorkspaceMarked fs q) (walkGo fuel p)) := by
  intro fuel
  induction fuel with
  | zero => intro p h; omega
  | succ f ih =>
    intro p h
    rw [fewGo, walkGo]
    by_cases hm : isWorkspaceMarked fs p = true
    · rw [if_pos hm, List.find?_cons_of_pos _ hm]
    · rw [if_neg hm, List.find?_cons_of_neg _ hm]
      by_cases ht : (osPathSplit p).2.length = 0
      · rw [if_pos ht, if_pos ht]
        rfl
      · rw [if_neg ht, if_neg ht]
        refine ih (osPathSplit p).1 ?_
        rw [osPathSplit_fst]
        have ht2 : (splitTail p).length ≠ 0 := ht
        have := splitHead_length_lt p ht2
        omega

theorem walkGo_stable : ∀ (f g : Nat) (p : FPath),
    p.length < f → p.length < g → walkGo f p = walkGo g p := by
  intro f
  induction f with
  | zero => intro g p h; omega
  | succ f ih =>
    intro g p hf hg
    cases g with
    | zero => omega
    | succ g =>
      rw [walkGo, walkGo]
      by_cases ht : (osPathSplit p).2.length = 0
      · rw [if_pos ht, if_pos ht]
      · rw [if_neg ht, if_neg ht]
        have ht2 : (splitTail p).length ≠ 0 := ht
        have := splitHead_length_lt p ht2
        rw [osPathSplit_fst, ih g (splitHead p) (by omega) (by omega)]

/-- C6: `find_enclosing_workspace` returns the first candidate on the upward
walk from `p` — the walk starts at `p` itself — that carries the metadata
directory as a real directory, and returns `none` when no candidate in the
ancestry does. -/
theorem find_enclosing_workspace_first_marked (fs : FS) (p : FPath) :
    find_enclosing_workspace fs p
        = List.find? (fun q => isWorkspaceMarked fs q) (walkChain p)
    ∧ (walkChain p).head? = some p
    ∧ ((∀ q ∈ walkChain p, isWorkspaceMarked fs q = false) →
        find_enclosing_workspace fs p = none) := by
  have h1 : find_enclosing_workspace fs p
      = List.find? (fun q => isWorkspaceMarked fs q) (walkChain p) := by
    unfold find_enclosing_workspace walkChain
    rw [fewGo_eq_walkGo_find? fs (p.length + 1) p (by omega)]
    rfl
  refine ⟨h1, ?_, ?_⟩
  · rw [walkChain, walkGo]
    rfl
  · intro hall
    rw [h1, List.find?_eq_none]
    intro q hq
    rw [hall q hq]
    simp

theorem find_enclosing_workspace_first_marked_w :
    find_enclosing_workspace sampleFS0 "/a/b".toList = none :=
  (find_enclosing_workspace_first_marked sampleFS0 "/a/b".toList).2.2 (by decide)

/-- C7: the discovery loop terminates within a number of iterations bounded
by the path length: with any fuel exceeding the length of `p`, the fuelled
loop completes (never exhausts its fuel) and returns the result of
`find_enclosing_workspace`. -/
theorem find_enclosing_workspace_terminates (fs : FS) (p : FPath) (fuel : Nat)
    (h : p.length < fuel) :
    fewGo fs fuel p = some (find_enclosing_workspace fs p) := by
  rw [fewGo_eq_walkGo_find? fs fuel p h]
  unfold find_enclosing_workspace
  rw [fewGo_eq_walkGo_find? fs (p.length + 1) p (by omega)]
  rw [walkGo_stable fuel (p.length + 1) p h (by omega)]
  rfl

theorem find_enclosing_workspace_terminates_w :
    fewGo sampleFS0 9 "/a/b".toList
      = some (find_enclosing_workspace sampleFS0 "/a/b".toList) :=
  find_enclosing_workspace_terminates sampleFS0 "/a/b".toList 9 (by decide)

/-! ### Absolute paths through the walk, and the nesting check -/

theorem fewGo_abs (fs : FS) : ∀ (fuel : Nat) (p m : FPath),
    p.head? = some '/' → fewGo fs fuel p = some (some m) → m.head? = some '/' := by
  intro fuel
  induction fuel with
  | zero => intro p m _ h; simp [fewGo] at h
  | succ f ih =>
    intro p m habs h
    rw [fewGo] at h
    by_cases hm : isWorkspaceMarked fs p = true
    · rw [if_pos hm] at h
      have : p = m := by
        have := (Option.some.injEq _ _).mp h
        exact (Option.some.injEq _ _).mp this
      rw [← this]
      exact habs
    · rw [if_neg hm] at h
      by_cases ht : (osPathSplit p).2.length = 0
      · rw [if_pos ht] at h
        simp at h
      · rw [if_neg ht] at h
        exact ih (osPathSplit p).1 m (splitHead_abs p habs) h

theorem find_abs (fs : FS) (p m : FPath) (habs : p.head? = some '/')
    (h : find_enclosing_workspace fs p = some m) : m.head? = some '/' := by
  unfold find_enclosing_workspace at h
  cases hfew : fewGo fs (p.length + 1) p with
  | none => rw [hfew] at h; simp at h
  | some r =>
    rw [hfew] at h
    have : r = some m := h
    rw [this] at hfew
    exact fewGo_abs fs (p.length + 1) p m habs hfew

theorem rmtree_err (fs : FS) (p : FPath) (e : Err)
    (h : (shutilRmtree fs p).2 = Except.error e) : e = Err.notADirectory := by
  unfold shutilRmtree at h
  by_cases hd : osPathIsdir fs p = true
  · rw [if_pos hd] at h; simp at h
  · rw [if_neg hd] at h
    exact ((Except.error.injEq _ _).mp h).symm

theorem mkdir_err (fs : FS) (p : FPath) (e : Err)
    (h : (osMkdir fs p).2 = Except.error e) : e = Err.fileExists := by
  unfold osMkdir at h
  by_cases hd : osPathExists fs p = true
  · rw [if_pos hd] at h
    exact ((Except.error.injEq _ _).mp h).symm
  · rw [if_neg hd] at h; simp at h

theorem initRest_not_nested (fs : FS) (w : FPath) (r : Bool) (a b : FPath) :
    (initRest fs w r).2 ≠ Except.error (Err.ioNested a b) := by
  intro h
  unfold initRest at h
  split at h
  · split at h
    · split at h
      · split at h
        · simp at h
        · rename_i fs₂ e heq
          have he : e = Err.fileExists := mkdir_err _ _ e (by rw [heq])
          rw [he] at h
          exact Err.noConfusion ((Except.error.injEq _ _).mp h)
      · rename_i fs₁ e heq
        have he : e = Err.notADirectory := rmtree_err _ _ e (by rw [heq])
        rw [he] at h
        exact Err.noConfusion ((Except.error.injEq _ _).mp h)
    · simp at h
  · split at h
    · simp at h
    · rename_i fs₁ e heq
      have he : e = Err.fileExists := mkdir_err _ _ e (by rw [heq])
      rw [he] at h
      exact Err.noConfusion ((Except.error.injEq _ _).mp h)

/-- C5: for an existing absolute path, `init_metadata_dir` fails with the
nested-workspace error, naming the found workspace, exactly when discovery
from the path finds a workspace different from the path itself; on that
failure the filesystem is unchanged.  In particular, when discovery returns
the path itself no nested-workspace error is raised. -/
theorem init_metadata_dir_nested_iff (fs : FS) (p : FPath) (reset : Bool)
    (m : FPath) (hex : osPathExists fs p = true) (habs : p.head? = some '/') :
    ((init_metadata_dir fs p reset).2 = Except.error (Err.ioNested p m) ↔
      (find_enclosing_workspace fs p = some m ∧ m ≠ p))
    ∧ ((init_metadata_dir fs p reset).2 = Except.error (Err.ioNested p m) →
        (init_metadata_dir fs p reset).1 = fs) := by
  cases hfind : find_enclosing_workspace fs p with
  | none =>
    have hstep : init_metadata_dir fs p reset = initRest fs p reset := by
      unfold init_metadata_dir
      rw [hex, hfind]
      rfl
    rw [hstep]
    exact ⟨⟨fun h => absurd h (initRest_not_nested fs p reset p m),
      fun hc => Option.noConfusion hc.1⟩,
      fun h => absurd h (initRest_not_nested fs p reset p m)⟩
  | some mk =>
    have hmknil : mk ≠ [] := by
      have habs2 := find_abs fs p mk habs hfind
      intro hn
      rw [hn] at habs2
      simp at habs2
    by_cases hc : mk = p
    · have hstep : init_metadata_dir fs p reset = initRest fs p reset := by
        unfold init_metadata_dir
        rw [hex, hfind]
        show (if ¬ mk = [] ∧ ¬ mk = p then (fs, Except.error (Err.ioNested p mk))
              else initRest fs p reset) = initRest fs p reset
        rw [if_neg (fun hand => hand.2 hc)]
      rw [hstep]
      refine ⟨⟨fun h => absurd h (initRest_not_nested fs p reset p m), ?_⟩,
        fun h => absurd h (initRest_not_nested fs p reset p m)⟩
      rintro ⟨hsome, hne⟩
      exact absurd (by rw [← Option.some.inj hsome]; exact hc) hne
    · have hstep : init_metadata_dir fs p reset
          = (fs, Except.error (Err.ioNested p mk)) := by
        unfold init_metadata_dir
        rw [hex, hfind]
        show (if ¬ mk = [] ∧ ¬ mk = p then (fs, Except.error (Err.ioNested p mk))
              else initRest fs p reset) = (fs, Except.error (Err.ioNested p mk))
        rw [if_pos ⟨hmknil, hc⟩]
      rw [hstep]
      refine ⟨⟨?_, ?_⟩, fun _ => rfl⟩
      · intro h
        have h3 := (Err.ioNested.injEq _ _ _ _).mp ((Except.error.injEq _ _).mp h)
        exact ⟨congrArg some h3.2, fun hmp => hc (h3.2.trans hmp)⟩
      · rintro ⟨hsome, hne⟩
        rw [Option.some.inj hsome]

theorem init_metadata_dir_nested_iff_w :
    ((init_metadata_dir sampleNestFS "/ws/inner".toList false).2
        = Except.error (Err.ioNested "/ws/inner".toList sampleWs) ↔
      (find_enclosing_workspace sampleNestFS "/ws/inner".toList = some sampleWs
        ∧ sampleWs ≠ "/ws/inner".toList))
    ∧ ((init_metadata_dir sampleNestFS "/ws/inner".toList false).2
        = Except.error (Err.ioNested "/ws/inner".toList sampleWs) →
        (init_metadata_dir sampleNestFS "/ws/inner".toList false).1 = sampleNestFS) :=
  init_metadata_dir_nested_iff sampleNestFS "/ws/inner".toList false sampleWs
    (by decide) (by decide)

/-! ### File table lemmas -/

theorem find?_filter_ne (files : List (FPath × FileData)) (q p : FPath)
    (h : q ≠ p) :
    List.find? (fun e => decide (e.1 = q))
        (files.filter (fun e => !decide (e.1 = p)))
      = List.find? (fun e => decide (e.1 = q)) files := by
  induction files with
  | nil => rfl
  | cons e fsl ih =>
    rw [List.filter_cons]
    by_cases hep : e.1 = p
    · rw [if_neg (by simp [hep])]
      rw [List.find?_cons_of_neg _ (by simp [hep, Ne.symm h])]
      exact ih
    · rw [if_pos (by simp [hep])]
      by_cases heq : e.1 = q
      · rw [List.find?_cons_of_pos _ (by simp [heq]),
          List.find?_cons_of_pos _ (by simp [heq])]
      · rw [List.find?_cons_of_neg _ (by simp [heq]),
          List.find?_cons_of_neg _ (by simp [heq])]
        exact ih

theorem any_filter_ne (files : List (FPath × FileData)) (q p : FPath)
    (h : q ≠ p) :
    (files.filter (fun e => !decide (e.1 = p))).any (fun e => decide (e.1 = q))
      = files.any (fun e => decide (e.1 = q)) := by
  induction files with
  | nil => rfl
  | cons e fsl ih =>
    rw [List.filter_cons]
    by_cases hep : e.1 = p
    · rw [if_neg (by simp [hep])]
      rw [ih, List.any_cons]
      rw [show decide (e.1 = q) = false by simp [hep, Ne.symm h]]
      simp
    · rw [if_pos (by simp [hep]), List.any_cons, List.any_cons, ih]

theorem lookup_write_self (files : List (FPath × FileData)) (p : FPath)
    (d : FileData) : lookupFileList (writeFileList files p d) p = some d := by
  unfold lookupFileList writeFileList
  rw [List.find?_cons_of_pos _ (by simp)]
  rfl

theorem lookup_write_ne (files : List (FPath × FileData)) (p : FPath)
    (d : FileData) (q : FPath) (h : q ≠ p) :
    lookupFileList (writeFileList files p d) q = lookupFileList files q := by
  unfold lookupFileList writeFileList
  rw [List.find?_cons_of_neg _ (by simp [Ne.symm h])]
  rw [find?_filter_ne files q p h]

theorem osPathExists_write_ne (fs : FS) (p : FPath) (d : FileData) (q : FPath)
    (h : q ≠ p) : osPathExists (writeFileFS fs p d) q = osPathExists fs q := by
  unfold osPathExists writeFileFS writeFileList
  simp only [List.any_cons]
  rw [show decide (((p, d) : FPath × FileData).1 = q) = false by
    simp [Ne.symm h]]
  rw [any_filter_ne fs.files q p h]
  simp

theorem osPathExists_write_self (fs : FS) (p : FPath) (d : FileData) :
    osPathExists (writeFileFS fs p d) p = true := by
  unfold osPathExists writeFileFS writeFileList
  simp

theorem osPathExists_cons_dir (dirs : List FPath)
    (files : List (FPath × FileData)) (d q : FPath) :
    osPathExists ⟨d :: dirs, files⟩ q
      = (decide (q = d) || osPathExists ⟨dirs, files⟩ q) := by
  unfold osPathExists
  simp [List.mem_cons, Bool.or_assoc]

theorem get_metadata_after_write (fs : FS) (w : FPath) (v : String) (y : Yaml)
    (hv : v ≠ "") :
    get_metadata (writeFileFS fs (verbFilePath w v) (FileData.yamlDoc y)) w v
      = Except.ok y := by
  unfold get_metadata
  rw [get_paths_snd w v hv]
  have h1 : osPathExists (writeFileFS fs (verbFilePath w v) (FileData.yamlDoc y))
      (verbFilePath w v) = true := osPathExists_write_self _ _ _
  have h2 : lookupFileList
      (writeFileFS fs (verbFilePath w v) (FileData.yamlDoc y)).files
      (verbFilePath w v) = some (FileData.yamlDoc y) := lookup_write_self _ _ _
  simp [h1, h2]

/-! ### Dict lemmas -/

theorem dictUpdate_fresh : ∀ (nd d : List (String × Yaml)),
    (∀ e ∈ nd, ∀ e2 ∈ d, e2.1 ≠ e.1) → (nd.map Prod.fst).Nodup →
    dictUpdate d nd = d ++ nd := by
  intro nd
  induction nd with
  | nil => intro d _ _; simp [dictUpdate]
  | cons e nd ih =>
    intro d hfresh hnodup
    unfold dictUpdate
    rw [List.foldl_cons]
    have hany : d.any (fun x => decide (x.1 = e.1)) = false := by
      cases hd : d.any (fun x => decide (x.1 = e.1)) with
      | false => rfl
      | true =>
        rw [List.any_eq_true] at hd
        obtain ⟨x, hx, hdec⟩ := hd
        exact absurd (by simpa using hdec)
          (hfresh e (List.mem_cons_self e nd) x hx)
    have hset : dictSet d e.1 e.2 = d ++ [e] := by
      unfold dictSet
      rw [hany]
      simp
    rw [hset]
    have hfresh2 : ∀ e1 ∈ nd, ∀ e2 ∈ d ++ [e], e2.1 ≠ e1.1 := by
      intro e1 he1 e2 he2
      rcases List.mem_append.mp he2 with h2 | h2
      · exact hfresh e1 (List.mem_cons_of_mem e he1) e2 h2
      · rw [List.mem_singleton.mp h2]
        intro hcontra
        have hmemmap : e1.1 ∈ nd.map Prod.fst := List.mem_map.mpr ⟨e1, he1, rfl⟩
        rw [← hcontra] at hmemmap
        rw [List.map_cons, List.nodup_cons] at hnodup
        exact hnodup.1 hmemmap
    have hnodup2 : (nd.map Prod.fst).Nodup := by
      rw [List.map_cons, List.nodup_cons] at hnodup
      exact hnodup.2
    calc List.foldl (fun acc e => dictSet acc e.1 e.2) (d ++ [e]) nd
        = dictUpdate (d ++ [e]) nd := rfl
      _ = (d ++ [e]) ++ nd := ih (d ++ [e]) hfresh2 hnodup2
      _ = d ++ e :: nd := by simp

theorem dictUpdate_nil_of_nodup (m : List (String × Yaml))
    (h : (m.map Prod.fst).Nodup) : dictUpdate [] m = m := by
  rw [dictUpdate_fresh m [] (by intro e _ e2 he2; simp at he2) h]
  rfl

/-! ### Initialization lemmas -/

theorem get_paths_fst (w : FPath) : (get_paths w).1 = mdPath w := rfl

theorem isUnder_self (r : FPath) : isUnder r r = true := by
  unfold isUnder
  simp

theorem init_fresh (fs : FS) (w : FPath)
    (hw : osPathExists fs w = true)
    (hfind : find_enclosing_workspace fs w = some w
      ∨ find_enclosing_workspace fs w = none)
    (hmd : osPathExists fs (mdPath w) = false) :
    init_metadata_dir fs w false
      = (⟨mdPath w :: fs.dirs, writeFileList fs.files (readmePath w) readmeData⟩,
         Except.ok ()) := by
  have hmk : osMkdir fs (mdPath w)
      = ({ fs with dirs := mdPath w :: fs.dirs }, Except.ok ()) := by
    unfold osMkdir
    rw [if_neg (by simp [hmd])]
  have hrest : initRest fs w false
      = (⟨mdPath w :: fs.dirs, writeFileList fs.files (readmePath w) readmeData⟩,
         Except.ok ()) := by
    unfold initRest
    rw [get_paths_fst, if_neg (by simp [hmd])]
    simp only [hmk]
    rfl
  rcases hfind with hfind | hfind
  · have hstep : init_metadata_dir fs w false = initRest fs w false := by
      unfold init_metadata_dir
      rw [hw, hfind]
      show (if ¬ w = [] ∧ ¬ w = w then (fs, Except.error (Err.ioNested w w))
            else initRest fs w false) = initRest fs w false
      rw [if_neg (fun hand => hand.2 rfl)]
    rw [hstep, hrest]
  · have hstep : init_metadata_dir fs w false = initRest fs w false := by
      unfold init_metadata_dir
      rw [hw, hfind]
      rfl
    rw [hstep, hrest]

theorem init_existing (fs : FS) (w : FPath)
    (hw : osPathExists fs w = true)
    (hfind : find_enclosing_workspace fs w = some w
      ∨ find_enclosing_workspace fs w = none)
    (hmd : osPathExists fs (mdPath w) = true) :
    init_metadata_dir fs w false
      = ({ fs with files := writeFileList fs.files (readmePath w) readmeData },
         Except.ok ()) := by
  have hrest : initRest fs w false
      = ({ fs with files := writeFileList fs.files (readmePath w) readmeData },
         Except.ok ()) := by
    unfold initRest
    rw [get_paths_fst, if_pos hmd]
    rfl
  rcases hfind with hfind | hfind
  · have hstep : init_metadata_dir fs w false = initRest fs w false := by
      unfold init_metadata_dir
      rw [hw, hfind]
      show (if ¬ w = [] ∧ ¬ w = w then (fs, Except.error (Err.ioNested w w))
            else initRest fs w false) = initRest fs w false
      rw [if_neg (fun hand => hand.2 rfl)]
    rw [hstep, hrest]
  · have hstep : init_metadata_dir fs w false = initRest fs w false := by
      unfold init_metadata_dir
      rw [hw, hfind]
      rfl
    rw [hstep, hrest]

theorem find_self_of_marked (fs : FS) (w : FPath)
    (hdir : osPathIsdir fs (mdPath w) = true) :
    find_enclosing_workspace fs w = some w := by
  have hex : osPathExists fs (mdPath w) = true := by
    unfold osPathExists
    unfold osPathIsdir at hdir
    rw [hdir]
    rfl
  have hmark : isWorkspaceMarked fs w = true := by
    unfold isWorkspaceMarked
    rw [get_paths_fst, hex, hdir]
    rfl
  unfold find_enclosing_workspace
  rw [show fewGo fs (w.length + 1) w = some (some w) by
    rw [fewGo, if_pos hmark]]
  rfl

theorem init_reset (fs : FS) (w : FPath)
    (hw : osPathExists fs w = true)
    (hdir : osPathIsdir fs (mdPath w) = true) :
    init_metadata_dir fs w true = (resetFS fs w, Except.ok ()) := by
  have hfind := find_self_of_marked fs w hdir
  have hexmd : osPathExists fs (mdPath w) = true := by
    unfold osPathExists
    unfold osPathIsdir at hdir
    rw [hdir]
    rfl
  have hrm : shutilRmtree fs (mdPath w)
      = (⟨fs.dirs.filter (fun d => !isUnder (mdPath w) d),
          fs.files.filter (fun e => !isUnder (mdPath w) e.1)⟩, Except.ok ()) := by
    unfold shutilRmtree
    rw [if_pos hdir]
  have hmdgone : osPathExists
      ⟨fs.dirs.filter (fun d => !isUnder (mdPath w) d),
       fs.files.filter (fun e => !isUnder (mdPath w) e.1)⟩ (mdPath w) = false := by
    unfold osPathExists
    have h1 : decide (mdPath w ∈ fs.dirs.filter
        (fun d => !isUnder (mdPath w) d)) = false := by
      rw [decide_eq_false_iff_not]
      intro hmem
      have h2 := (List.mem_filter.mp hmem).2
      rw [isUnder_self] at h2
      simp at h2
    have h2 : (fs.files.filter (fun e => !isUnder (mdPath w) e.1)).any
        (fun e => decide (e.1 = mdPath w)) = false := by
      cases hany : (fs.files.filter (fun e => !isUnder (mdPath w) e.1)).any
          (fun e => decide (e.1 = mdPath w)) with
      | false => rfl
      | true =>
        rw [List.any_eq_true] at hany
        obtain ⟨e, hmem, hdec⟩ := hany
        have h3 := (List.mem_filter.mp hmem).2
        have h4 : e.1 = mdPath w := by simpa using hdec
        rw [h4, isUnder_self] at h3
        simp at h3
    rw [h1, h2]
    rfl
  have hmk : osMkdir
      ⟨fs.dirs.filter (fun d => !isUnder (mdPath w) d),
       fs.files.filter (fun e => !isUnder (mdPath w) e.1)⟩ (mdPath w)
      = (⟨mdPath w :: fs.dirs.filter (fun d => !isUnder (mdPath w) d),
          fs.files.filter (fun e => !isUnder (mdPath w) e.1)⟩, Except.ok ()) := by
    unfold osMkdir
    rw [if_neg (by simp [hmdgone])]
  have hstep : init_metadata_dir fs w true = initRest fs w true := by
    unfold init_metadata_dir
    rw [hw, hfind]
    show (if ¬ w = [] ∧ ¬ w = w then (fs, Except.error (Err.ioNested w w))
          else initRest fs w true) = initRest fs w true
    rw [if_neg (fun hand => hand.2 rfl)]
  rw [hstep]
  unfold initRest
  rw [get_paths_fst, if_pos hexmd, if_pos rfl]
  simp only [hrm, hmk]
  rfl

/-! ### Update lemmas -/

theorem exists_of_isdir (fs : FS) (p : FPath) (h : osPathIsdir fs p = true) :
    osPathExists fs p = true := by
  unfold osPathExists
  unfold osPathIsdir at h
  rw [h]
  rfl

theorem exists_of_lookup (fs : FS) (q : FPath) (d : FileData)
    (h : lookupFileList fs.files q = some d) : osPathExists fs q = true := by
  unfold lookupFileList at h
  cases hf : fs.files.find? (fun e => decide (e.1 = q)) with
  | none => rw [hf] at h; simp at h
  | some e =>
    have hmem := List.mem_of_find?_eq_some hf
    have hany : fs.files.any (fun e2 => decide (e2.1 = q)) = true :=
      List.any_eq_true.mpr
        ⟨e, hmem, @List.find?_some _ (fun e2 => decide (e2.1 = q)) e fs.files hf⟩
    unfold osPathExists
    rw [hany]
    simp

theorem get_metadata_of_lookup (fs : FS) (w : FPath) (v : String) (y : Yaml)
    (hv : v ≠ "")
    (h : lookupFileList fs.files (verbFilePath w v) = some (FileData.yamlDoc y)) :
    get_metadata fs w v = Except.ok y := by
  unfold get_metadata
  rw [get_paths_snd w v hv]
  have hex := exists_of_lookup fs (verbFilePath w v) _ h
  simp [hex, h]

theorem osPathExists_after_init_fresh (fs : FS) (w : FPath) (q : FPath)
    (hq : q ≠ readmePath w) :
    osPathExists ⟨mdPath w :: fs.dirs,
        writeFileList fs.files (readmePath w) readmeData⟩ q
      = (decide (q = mdPath w) || osPathExists fs q) := by
  show osPathExists
    (writeFileFS ⟨mdPath w :: fs.dirs, fs.files⟩ (readmePath w) readmeData) q = _
  rw [osPathExists_write_ne _ _ _ _ hq, osPathExists_cons_dir]

theorem osPathExists_after_init_existing (fs : FS) (w : FPath) (q : FPath)
    (hq : q ≠ readmePath w) :
    osPathExists
        { fs with files := writeFileList fs.files (readmePath w) readmeData } q
      = osPathExists fs q :=
  osPathExists_write_ne fs (readmePath w) readmeData q hq

theorem osPathExists_resetFS (fs : FS) (w : FPath) (q : FPath)
    (hq : q ≠ readmePath w) :
    osPathExists (resetFS fs w) q
      = (decide (q = mdPath w)
         || osPathExists ⟨fs.dirs.filter (fun d => !isUnder (mdPath w) d),
              fs.files.filter (fun e => !isUnder (mdPath w) e.1)⟩ q) := by
  show osPathExists
    (writeFileFS ⟨mdPath w :: fs.dirs.filter (fun d => !isUnder (mdPath w) d),
       fs.files.filter (fun e => !isUnder (mdPath w) e.1)⟩
      (readmePath w) readmeData) q = _
  rw [osPathExists_write_ne _ _ _ _ hq, osPathExists_cons_dir]

theorem update_metadata_spec (fs fs₁ : FS) (w : FPath) (v : String)
    (m : List (String × Yaml)) (loaded : Yaml)
    (hv : v ≠ "")
    (hinit : init_metadata_dir fs w false = (fs₁, Except.ok ()))
    (hread : get_metadata fs₁ (mdPath w) v = Except.ok loaded)
    (hfalsy : pyTruthyYaml loaded = false) :
    update_metadata fs w v m
      = (writeFileFS fs₁ (verbFilePath w v)
          (FileData.yamlDoc (Yaml.map (dictUpdate [] m))), Except.ok ()) := by
  have hread2 : get_metadata fs₁ (get_paths w (some v)).1 v = Except.ok loaded :=
    hread
  unfold update_metadata
  simp only [hinit, hread2, hfalsy, get_paths_snd w v hv]
  rfl

/-! ### Claim C2: round-trip -/

/-- C2 counterexample: a filesystem satisfying every hypothesis of the
round-trip claim — the workspace path exists, discovery returns the workspace
itself (so it is not nested in another workspace), and no verb document for
`v` exists — on which a single update followed by a read does not return the
written mapping: a document planted at the anomalous nested path
`w/.catkin_tools/.catkin_tools/v.yml`, which the merge step erroneously
reads, is merged into the result. -/
theorem update_roundtrip_counterexample :
    osPathExists advFS sampleWs = true
    ∧ find_enclosing_workspace advFS sampleWs = some sampleWs
    ∧ osPathExists advFS (verbFilePath sampleWs "v") = false
    ∧ (update_metadata advFS sampleWs "v" [("b", Yaml.int 2)]).2 = Except.ok ()
    ∧ get_metadata (update_metadata advFS sampleWs "v" [("b", Yaml.int 2)]).1
        sampleWs "v"
        = Except.ok (Yaml.map [("a", Yaml.int 5), ("b", Yaml.int 2)])
    ∧ get_metadata (update_metadata advFS sampleWs "v" [("b", Yaml.int 2)]).1
        sampleWs "v" ≠ Except.ok (Yaml.map [("b", Yaml.int 2)]) := by
  refine ⟨by decide, by decide, by decide, rfl, rfl, ?_⟩
  rw [show get_metadata (update_metadata advFS sampleWs "v" [("b", Yaml.int 2)]).1
      sampleWs "v"
      = Except.ok (Yaml.map [("a", Yaml.int 5), ("b", Yaml.int 2)]) from rfl]
  simp

/-- C2 (amended): for every workspace whose path exists and is not nested in
another workspace, a nonempty verb, and a mapping with distinct keys, if no
verb document exists and additionally no file exists at the anomalous nested
path `w/.catkin_tools/.catkin_tools/v.yml` that the update's merge step reads
(because the source passes the metadata directory where the workspace path is
expected), then updating and reading back returns exactly the mapping. -/
theorem update_roundtrip_amended (fs : FS) (w : FPath) (v : String)
    (m : List (String × Yaml))
    (hw : osPathExists fs w = true)
    (hfind : find_enclosing_workspace fs w = some w
      ∨ find_enclosing_workspace fs w = none)
    (hv : v ≠ "")
    (_hvf : osPathExists fs (verbFilePath w v) = false)
    (hbug : osPathExists fs (bugReadPath w v) = false)
    (hnodup : (m.map Prod.fst).Nodup) :
    (update_metadata fs w v m).2 = Except.ok ()
    ∧ get_metadata (update_metadata fs w v m).1 w v = Except.ok (Yaml.map m) := by
  by_cases hmd : osPathExists fs (mdPath w) = true
  · have hinit := init_existing fs w hw hfind hmd
    have hbug1 : osPathExists
        { fs with files := writeFileList fs.files (readmePath w) readmeData }
        (bugReadPath w v) = false := by
      rw [osPathExists_after_init_existing fs w (bugReadPath w v)
        (verb_ne_readme (mdPath w) w v)]
      exact hbug
    have hread : get_metadata
        { fs with files := writeFileList fs.files (readmePath w) readmeData }
        (mdPath w) v = Except.ok (Yaml.map []) :=
      get_metadata_absent _ (mdPath w) v hv hbug1
    have hupd := update_metadata_spec fs _ w v m (Yaml.map []) hv hinit hread rfl
    rw [hupd]
    refine ⟨rfl, ?_⟩
    rw [dictUpdate_nil_of_nodup m hnodup]
    exact get_metadata_after_write _ w v (Yaml.map m) hv
  · have hmd2 : osPathExists fs (mdPath w) = false := by
      cases h2 : osPathExists fs (mdPath w) with
      | false => rfl
      | true => exact absurd h2 hmd
    have hinit := init_fresh fs w hw hfind hmd2
    have hbug1 : osPathExists
        ⟨mdPath w :: fs.dirs, writeFileList fs.files (readmePath w) readmeData⟩
        (bugReadPath w v) = false := by
      rw [osPathExists_after_init_fresh fs w (bugReadPath w v)
        (verb_ne_readme (mdPath w) w v)]
      rw [hbug]
      rw [show decide (bugReadPath w v = mdPath w) = false by
        rw [decide_eq_false_iff_not]; exact verb_ne_md (mdPath w) w v]
      rfl
    have hread : get_metadata
        ⟨mdPath w :: fs.dirs, writeFileList fs.files (readmePath w) readmeData⟩
        (mdPath w) v = Except.ok (Yaml.map []) :=
      get_metadata_absent _ (mdPath w) v hv hbug1
    have hupd := update_metadata_spec fs _ w v m (Yaml.map []) hv hinit hread rfl
    rw [hupd]
    refine ⟨rfl, ?_⟩
    rw [dictUpdate_nil_of_nodup m hnodup]
    exact get_metadata_after_write _ w v (Yaml.map m) hv

theorem update_roundtrip_amended_w :
    (update_metadata sampleFS0 sampleWs "v" [("a", Yaml.int 1)]).2 = Except.ok ()
    ∧ get_metadata (update_metadata sampleFS0 sampleWs "v"
        [("a", Yaml.int 1)]).1 sampleWs "v"
        = Except.ok (Yaml.map [("a", Yaml.int 1)]) :=
  update_roundtrip_amended sampleFS0 sampleWs "v" [("a", Yaml.int 1)]
    (by decide) (Or.inr (by decide)) (by decide) (by decide) (by decide)
    (by decide)

/-! ### Claim C9: null documents -/

/-- C9: when the verb file exists and parses to the null document,
`get_metadata` returns that null value rather than an empty mapping, so its
result is not always a mapping; `update_metadata`, however, coalesces such a
null read result to a fresh empty mapping before merging, so the update
succeeds and writes exactly the merge of the empty mapping with the new
data. -/
theorem get_metadata_null_document (fs : FS) (w : FPath) (v : String)
    (m : List (String × Yaml)) (hv : v ≠ "") :
    (lookupFileList fs.files (verbFilePath w v)
        = some (FileData.yamlDoc Yaml.null) →
      get_metadata fs w v = Except.ok Yaml.null)
    ∧ (osPathExists fs w = true →
       (find_enclosing_workspace fs w = some w
         ∨ find_enclosing_workspace fs w = none) →
       lookupFileList fs.files (bugReadPath w v)
           = some (FileData.yamlDoc Yaml.null) →
         (update_metadata fs w v m).2 = Except.ok ()
         ∧ (update_metadata fs w v m).1.files.head?
             = some (verbFilePath w v,
                 FileData.yamlDoc (Yaml.map (dictUpdate [] m)))) := by
  constructor
  · intro hlook
    exact get_metadata_of_lookup fs w v Yaml.null hv hlook
  · intro hw hfind hlook
    have hlook1 : lookupFileList
        (writeFileList fs.files (readmePath w) readmeData) (bugReadPath w v)
        = some (FileData.yamlDoc Yaml.null) :=
      (lookup_write_ne fs.files (readmePath w) readmeData (bugReadPath w v)
        (verb_ne_readme (mdPath w) w v)).trans hlook
    by_cases hmd : osPathExists fs (mdPath w) = true
    · have hinit := init_existing fs w hw hfind hmd
      have hread : get_metadata
          { fs with files := writeFileList fs.files (readmePath w) readmeData }
          (mdPath w) v = Except.ok Yaml.null :=
        get_metadata_of_lookup _ (mdPath w) v Yaml.null hv hlook1
      have hupd := update_metadata_spec fs _ w v m Yaml.null hv hinit hread rfl
      rw [hupd]
      exact ⟨rfl, rfl⟩
    · have hmd2 : osPathExists fs (mdPath w) = false := by
        cases h2 : osPathExists fs (mdPath w) with
        | false => rfl
        | true => exact absurd h2 hmd
      have hinit := init_fresh fs w hw hfind hmd2
      have hread : get_metadata
          ⟨mdPath w :: fs.dirs, writeFileList fs.files (readmePath w) readmeData⟩
          (mdPath w) v = Except.ok Yaml.null :=
        get_metadata_of_lookup _ (mdPath w) v Yaml.null hv hlook1
      have hupd := update_metadata_spec fs _ w v m Yaml.null hv hinit hread rfl
      rw [hupd]
      exact ⟨rfl, rfl⟩

theorem get_metadata_null_document_w :
    get_metadata sampleNullFS sampleWs "v" = Except.ok Yaml.null
    ∧ ((update_metadata sampleNullFS sampleWs "v" [("c", Yaml.int 3)]).2
        = Except.ok ()
       ∧ (update_metadata sampleNullFS sampleWs "v"
            [("c", Yaml.int 3)]).1.files.head?
           = some (verbFilePath sampleWs "v",
               FileData.yamlDoc (Yaml.map (dictUpdate [] [("c", Yaml.int 3)])))) :=
  ⟨(get_metadata_null_document sampleNullFS sampleWs "v" [("c", Yaml.int 3)]
      (by decide)).1 (by rfl),
   (get_metadata_null_document sampleNullFS sampleWs "v" [("c", Yaml.int 3)]
      (by decide)).2 (by decide) (Or.inl (by decide)) (by rfl)⟩

/-! ### Claim C8: reset semantics -/

/-- C8: on a workspace whose metadata directory exists, a reset
re-initialization deletes everything under the metadata directory and
recreates it empty (plus the README), so reading any verb afterwards yields
an empty mapping; a non-reset re-initialization leaves the directories and
file contents untouched apart from rewriting the README. -/
theorem init_metadata_dir_reset_semantics (fs : FS) (w : FPath) (v : String)
    (hw : osPathExists fs w = true)
    (hdir : osPathIsdir fs (mdPath w) = true)
    (hv : v ≠ "") (hvh : (v.toList).head? ≠ some '/') :
    init_metadata_dir fs w true = (resetFS fs w, Except.ok ())
    ∧ get_metadata (resetFS fs w) w v = Except.ok (Yaml.map [])
    ∧ init_metadata_dir fs w false
        = ({ fs with files := writeFileList fs.files (readmePath w) readmeData },
           Except.ok ()) := by
  refine ⟨init_reset fs w hw hdir, ?_,
    init_existing fs w hw (Or.inl (find_self_of_marked fs w hdir))
      (exists_of_isdir fs (mdPath w) hdir)⟩
  have hvtl : v.toList ≠ [] := fun hnil => hv (String.ext hnil)
  have hbhead : ((v ++ ".yml").toList).head? ≠ some '/' := by
    rw [toList_append, List.head?_append_of_ne_nil _ hvtl]
    exact hvh
  have hvfeq : verbFilePath w v = mdPath w ++ '/' :: (v ++ ".yml").toList := by
    show osPathJoin (mdPath w) (v ++ ".yml").toList = _
    exact osPathJoin_eq _ _ (mdPath_ne_nil w) (mdPath_getLast_ne_sep w) hbhead
  have hunder : isUnder (mdPath w) (verbFilePath w v) = true := by
    rw [hvfeq]
    unfold isUnder
    have htake : (mdPath w ++ '/' :: (v ++ ".yml").toList).take
        ((mdPath w).length + 1) = mdPath w ++ ['/'] := by
      have h0 := @List.take_append _ (mdPath w ++ ['/']) ((v ++ ".yml").toList) 0
      rw [List.length_append] at h0
      rw [show mdPath w ++ '/' :: (v ++ ".yml").toList
          = (mdPath w ++ ['/']) ++ (v ++ ".yml").toList by simp]
      simpa using h0
    rw [htake]
    simp
  have hexr : osPathExists (resetFS fs w) (verbFilePath w v) = false := by
    rw [osPathExists_resetFS fs w (verbFilePath w v) (verb_ne_readme w w v)]
    have hd1 : decide (verbFilePath w v = mdPath w) = false := by
      rw [decide_eq_false_iff_not]
      exact verb_ne_md w w v
    have hd2 : osPathExists
        ⟨fs.dirs.filter (fun d => !isUnder (mdPath w) d),
         fs.files.filter (fun e => !isUnder (mdPath w) e.1)⟩
        (verbFilePath w v) = false := by
      unfold osPathExists
      have h1 : decide (verbFilePath w v
          ∈ fs.dirs.filter (fun d => !isUnder (mdPath w) d)) = false := by
        rw [decide_eq_false_iff_not]
        intro hmem
        have h2 := (List.mem_filter.mp hmem).2
        rw [hunder] at h2
        simp at h2
      have h2 : (fs.files.filter (fun e => !isUnder (mdPath w) e.1)).any
          (fun e => decide (e.1 = verbFilePath w v)) = false := by
        cases hany : (fs.files.filter (fun e => !isUnder (mdPath w) e.1)).any
            (fun e => decide (e.1 = verbFilePath w v)) with
        | false => rfl
        | true =>
          rw [List.any_eq_true] at hany
          obtain ⟨e, hmem, hdec⟩ := hany
          have h3 := (List.mem_filter.mp hmem).2
          have h4 : e.1 = verbFilePath w v := by simpa using hdec
          rw [h4, hunder] at h3
          simp at h3
      rw [h1, h2]
      rfl
    rw [hd1, hd2]
    rfl
  exact get_metadata_absent (resetFS fs w) w v hv hexr

theorem init_metadata_dir_reset_semantics_w :
    init_metadata_dir sampleDocFS sampleWs true
      = (resetFS sampleDocFS sampleWs, Except.ok ())
    ∧ get_metadata (resetFS sampleDocFS sampleWs) sampleWs "v"
        = Except.ok (Yaml.map [])
    ∧ init_metadata_dir sampleDocFS sampleWs false
        = ({ sampleDocFS with
              files := writeFileList sampleDocFS.files (readmePath sampleWs)
                readmeData }, Except.ok ()) :=
  init_metadata_dir_reset_semantics sampleDocFS sampleWs "v"
    (by decide) (by decide) (by decide) (by decide)
